import Mathlib

/-!
Verification development for the bigo task-routing engine.

This file gives a shallow embedding of the core of the repository —
the tier classifier (`internal/conductor/classifier.go`), the conductor
pipeline (`internal/conductor/conductor.go`), and the persistence layer
(`internal/ledger/ledger.go`) — and proves properties of it.

Modelling conventions:
- Go `float64` values are embedded as exact rationals (`ℚ`); every float
  literal in the source is a short decimal, so the embedding is exact.
- Go `string` is `String`; the classifier works on the lower-cased list of
  characters of the text.  `strings.ToLower` is embedded as ASCII case
  folding (the two differ only on non-ASCII letters).
- The regular expressions of the classifier are embedded structurally as
  `Rx` values and matched by an exhaustive backtracking matcher; the `(?i)`
  flags are dropped because the text is already lower-cased before
  matching, so every literal is written in lower case.
- Go iterates the tier-score map in an unspecified order; the embedding
  takes that iteration order as an explicit argument `order : List Tier`.
  A tier that matched no pattern has no entry in the Go map, but iterating
  it is a no-op (its score 0 never beats the running maximum, which starts
  at 0 and only grows), so iterating any list of tiers that contains every
  tier at least once produces exactly the set of behaviours Go can produce.
- SQLite is embedded as an in-memory state of two append-only lists and
  writes are assumed to succeed; timestamps and the random row ids are
  supplied as explicit parameters.
-/

/-! ## Tiers and backends (`pkg/types/types.go`) -/

/-- Task complexity tiers, `types.Tier` (Go `int` constants 0–4). -/
inductive Tier
  | trivial
  | simple
  | standard
  | complex
  | critical
deriving DecidableEq, Repr, Fintype

/-- The underlying Go integer of a tier. -/
def Tier.toNat : Tier → Nat
  | .trivial => 0
  | .simple => 1
  | .standard => 2
  | .complex => 3
  | .critical => 4

/-- All five tiers, in increasing order of the underlying integer. -/
def allTiers : List Tier := [.trivial, .simple, .standard, .complex, .critical]

/-- `types.Tier.String()`. -/
def tierName : Tier → String
  | .trivial => "TRIVIAL"
  | .simple => "SIMPLE"
  | .standard => "STANDARD"
  | .complex => "COMPLEX"
  | .critical => "CRITICAL"

def BackendClaudeOpus : String := "claude:opus"

def BackendClaudeSonnet : String := "claude:sonnet"

def BackendClaudeHaiku : String := "claude:haiku"

def BackendOllamaFast : String := "ollama:fast"

def BackendOllama : String := "ollama:default"

def BackendOllamaReason : String := "ollama:reasoning"

/-- `types.TierConfig`. -/
structure TierConfig where
  primaryBackend : String
  validatorBackend : String
  validatorCount : Nat
  requiredApprovals : Nat
deriving DecidableEq, Repr

/-- `types.DefaultTierConfigs()`; the Go map literal holds exactly one entry
per tier, so it is embedded as a total function. -/
def defaultTierConfigs : Tier → TierConfig
  | .trivial => ⟨BackendOllamaFast, "", 0, 0⟩
  | .simple => ⟨BackendOllama, BackendOllama, 1, 1⟩
  | .standard => ⟨BackendClaudeSonnet, BackendClaudeSonnet, 2, 2⟩
  | .complex => ⟨BackendClaudeSonnet, BackendClaudeSonnet, 3, 2⟩
  | .critical => ⟨BackendClaudeOpus, BackendClaudeSonnet, 5, 4⟩

/-! ## Text primitives -/

/-- ASCII case folding of one character (`strings.ToLower`, restricted to
ASCII; the Go function differs only on non-ASCII letters). -/
def asciiLowerChar (c : Char) : Char :=
  if 'A' ≤ c ∧ c ≤ 'Z' then Char.ofNat (c.toNat + 32) else c

/-- The lower-cased text buffer the classifier works on:
`strings.ToLower(title + " " + description)` as a character list. -/
def textOf (title description : String) : List Char :=
  ((title ++ " " ++ description).data).map asciiLowerChar

/-- Does `s` start with `pat`? -/
def listStarts : List Char → List Char → Bool
  | _, [] => true
  | [], _ :: _ => false
  | c :: cs, p :: ps => c == p && listStarts cs ps

/-- Does `pat` occur contiguously anywhere in `s`?  (`strings.Contains`.) -/
def containsSeq : List Char → List Char → Bool
  | [], pat => listStarts [] pat
  | c :: rest, pat => listStarts (c :: rest) pat || containsSeq rest pat

/-- `strings.Contains(text, pat)` on the character-list text. -/
def hasSub (cs : List Char) (pat : String) : Bool :=
  containsSeq cs pat.data

/-! ## Regular expressions (`regexp` patterns of `classifier.go`)

The thirty patterns of the classifier use only literals, alternation,
optional groups, `\s+`, and the word boundary `\b`, so the embedding has
exactly those constructors.  Matching is an exhaustive backtracking search,
which decides the same "some match exists somewhere" question that Go's
`Regexp.MatchString` answers. -/

inductive Rx
  | eps : Rx
  | lit : List Char → Rx
  | wordB : Rx
  | ws1 : Rx
  | opt : Rx → Rx
  | cat : Rx → Rx → Rx
  | alt : Rx → Rx → Rx
deriving Repr

/-- RE2 word characters `\w` = `[0-9A-Za-z_]`. -/
def isWordChar (c : Char) : Bool :=
  ('a' ≤ c && c ≤ 'z') || ('A' ≤ c && c ≤ 'Z') || ('0' ≤ c && c ≤ '9') || c == '_'

/-- RE2 whitespace `\s` = `[\t\n\f\r ]`. -/
def isSpaceRE2 (c : Char) : Bool :=
  c == ' ' || c == '\t' || c == '\n' || c == Char.ofNat 12 || c == '\r'

def optWord : Option Char → Bool
  | none => false
  | some c => isWordChar c

/-- `\b` holds between a word character and a non-word character (string
edges count as non-word). -/
def boundaryOk (p n : Option Char) : Bool :=
  optWord p != optWord n

/-- Consume the literal `l`; the state is (previous character, remaining
input). -/
def litRun : List Char → Option Char → List Char → List (Option Char × List Char)
  | [], p, cs => [(p, cs)]
  | _ :: _, _, [] => []
  | l :: ls, _, c :: cs => if c == l then litRun ls (some c) cs else []

/-- Consume one or more whitespace characters, returning every possible
stopping point. -/
def wsRun : Option Char → List Char → List (Option Char × List Char)
  | _, [] => []
  | _, c :: cs => if isSpaceRE2 c then (some c, cs) :: wsRun (some c) cs else []

/-- All states reachable by matching `r` at the current position. -/
def runRx : Rx → Option Char → List Char → List (Option Char × List Char)
  | .eps, p, cs => [(p, cs)]
  | .lit l, p, cs => litRun l p cs
  | .wordB, p, cs => if boundaryOk p cs.head? then [(p, cs)] else []
  | .ws1, p, cs => wsRun p cs
  | .opt r, p, cs => (p, cs) :: runRx r p cs
  | .cat r1 r2, p, cs => (runRx r1 p cs).flatMap (fun st => runRx r2 st.1 st.2)
  | .alt r1 r2, p, cs => runRx r1 p cs ++ runRx r2 p cs

/-- Search for a match of `r` starting at any position of the remaining
input (the first argument of the state is the character just before it). -/
def searchRx (r : Rx) : Option Char → List Char → Bool
  | p, [] => !(runRx r p []).isEmpty
  | p, c :: cs => !(runRx r p (c :: cs)).isEmpty || searchRx r (some c) cs

/-- `Regexp.MatchString` for the embedded pattern language. -/
def rxMatch (r : Rx) (cs : List Char) : Bool :=
  searchRx r none cs

def rlit (s : String) : Rx := .lit s.data

/-- Alternation of literal strings, `(a|b|…)`. -/
def ralts : List String → Rx
  | [] => .eps
  | [s] => rlit s
  | s :: rest => .alt (rlit s) (ralts rest)

/-- Concatenation of a sequence of pieces. -/
def rcat : List Rx → Rx
  | [] => .eps
  | [r] => r
  | r :: rest => .cat r (rcat rest)

/-! ## The pattern table (`Classifier.initPatterns`) -/

/-- One classification pattern: name, compiled regex, positive weight. -/
structure Pattern where
  name : String
  rx : Rx
  weight : ℚ

/-- TRIVIAL patterns. -/
def trivialPatterns : List Pattern :=
  [⟨"typo", rcat [.wordB, ralts ["typo", "spelling", "spelt", "misspell"]], 0.9⟩,
   ⟨"format", rcat [.wordB, ralts ["format", "indent", "whitespace", "spacing"], .wordB], 0.8⟩,
   ⟨"comment", rcat [.wordB, ralts ["add", "update", "fix"], .ws1,
      .opt (rcat [rlit "a", .ws1]), rlit "comment"], 0.8⟩,
   ⟨"rename_local", rcat [.wordB, rlit "rename", .ws1,
      .opt (rcat [rlit "the", .ws1]), ralts ["variable", "param", "local"]], 0.7⟩,
   ⟨"simple_string", rcat [.wordB, ralts ["change", "update"], .ws1,
      .opt (rcat [rlit "the", .ws1]), ralts ["string", "text", "message", "label"]], 0.6⟩,
   ⟨"import", rcat [.wordB, ralts ["add", "remove", "fix"], .ws1,
      .opt (rcat [ralts ["an", "a"], .ws1]), rlit "import"], 0.7⟩]

/-- SIMPLE patterns. -/
def simplePatterns : List Pattern :=
  [⟨"add_function", rcat [.wordB, rlit "add", .ws1, .opt (rcat [rlit "a", .ws1]),
      .opt (rcat [rlit "simple", .ws1]), ralts ["function", "method", "helper"]], 0.7⟩,
   ⟨"fix_bug_obvious", rcat [.wordB, rlit "fix", .ws1, .opt (rcat [rlit "the", .ws1]),
      ralts ["bug", "issue", "error", "crash"], .ws1, ralts ["in", "where", "when"]], 0.6⟩,
   ⟨"update_config", rcat [.wordB, ralts ["update", "change", "modify"], .ws1,
      .opt (rcat [rlit "the", .ws1]), rlit "config"], 0.7⟩,
   ⟨"add_field", rcat [.wordB, rlit "add", .ws1, .opt (rcat [rlit "a", .ws1]),
      .opt (rcat [rlit "new", .ws1]), ralts ["field", "property", "attribute"]], 0.6⟩,
   ⟨"simple_validation", rcat [.wordB, rlit "add", .ws1,
      .opt (rcat [rlit "simple", .ws1]), rlit "validation"], 0.6⟩,
   ⟨"update_constant", rcat [.wordB, ralts ["update", "change"], .ws1,
      .opt (rcat [rlit "the", .ws1]), ralts ["constant", "value", "default"]], 0.7⟩]

/-- STANDARD patterns. -/
def standardPatterns : List Pattern :=
  [⟨"new_feature", rcat [.wordB, ralts ["implement", "create", "build", "add"], .ws1,
      .opt (rcat [rlit "a", .ws1]), .opt (rcat [rlit "new", .ws1]), rlit "feature"], 0.7⟩,
   ⟨"refactor", rcat [.wordB, rlit "refactor", .wordB], 0.6⟩,
   ⟨"add_tests", rcat [.wordB, ralts ["add", "write", "create"], .ws1,
      .opt (rcat [rlit "unit", .ws1]), rlit "test", .opt (rlit "s")], 0.6⟩,
   ⟨"api_endpoint", rcat [.wordB, ralts ["add", "create", "implement"], .ws1,
      .opt (rcat [ralts ["an", "a"], .ws1]), .opt (rcat [rlit "api", .ws1]), rlit "endpoint"], 0.7⟩,
   ⟨"component", rcat [.wordB, ralts ["create", "build", "add"], .ws1,
      .opt (rcat [rlit "a", .ws1]), .opt (rcat [rlit "new", .ws1]), rlit "component"], 0.6⟩,
   ⟨"integration", rcat [.wordB, rlit "integrat", ralts ["e", "ion"], .wordB], 0.5⟩]

/-- COMPLEX patterns. -/
def complexPatterns : List Pattern :=
  [⟨"architecture", rcat [.wordB, ralts ["architect", "redesign", "restructure"]], 0.8⟩,
   ⟨"migration", rcat [.wordB,
      .alt (rlit "migrat") (rcat [rlit "data", .ws1, rlit "migration"])], 0.8⟩,
   ⟨"cross_cutting", rcat [.wordB, ralts ["across", "throughout", "all"], .ws1,
      .opt (rcat [rlit "the", .ws1]), ralts ["codebase", "project", "system"]], 0.7⟩,
   ⟨"api_breaking", rcat [.wordB, rlit "breaking", .ws1, rlit "change"], 0.8⟩,
   ⟨"multiple_services", rcat [.wordB, rlit "multiple", .ws1,
      ralts ["service", "system", "component"], rlit "s"], 0.7⟩,
   ⟨"database_schema", rcat [.wordB, ralts ["database", "db"], .ws1, rlit "schema"], 0.7⟩]

/-- CRITICAL patterns. -/
def criticalPatterns : List Pattern :=
  [⟨"security", rcat [.wordB,
      .alt (ralts ["security", "vulnerab", "exploit", "injection", "xss", "csrf"])
           (rcat [rlit "auth", .opt (ralts ["entication", "orization"])]),
      .wordB], 0.9⟩,
   ⟨"payments", rcat [.wordB, ralts ["payment", "billing", "transaction", "money", "financial"]], 0.9⟩,
   ⟨"encryption", rcat [.wordB, ralts ["encrypt", "decrypt", "crypto", "hash", "secret", "credential"]], 0.8⟩,
   ⟨"core_algorithm", rcat [.wordB, rlit "core", .ws1, ralts ["algorithm", "logic", "system"]], 0.8⟩,
   ⟨"production_data", rcat [.wordB, rlit "production", .ws1, ralts ["data", "database", "system"]], 0.9⟩,
   ⟨"user_data", rcat [.wordB, ralts ["user", "customer", "personal"], .ws1, rlit "data"], 0.8⟩]

/-- The pattern table `Classifier.patterns`. -/
def patternTable : Tier → List Pattern
  | .trivial => trivialPatterns
  | .simple => simplePatterns
  | .standard => standardPatterns
  | .complex => complexPatterns
  | .critical => criticalPatterns

/-! ## Classification (`Classifier.Classify` and its helpers) -/

/-- The patterns of tier `t` that match the text (the scoring loop tests
every pattern of every tier). -/
def tierMatched (cs : List Char) (t : Tier) : List Pattern :=
  (patternTable t).filter (fun p => rxMatch p.rx cs)

/-- `scores[tier]`: the sum of the weights of the matching patterns. -/
def tierScore (cs : List Char) (t : Tier) : ℚ :=
  (tierMatched cs t).foldl (fun s p => s + p.weight) 0

/-- `matchedPatterns[tier]`: the names of the matching patterns, in table
order. -/
def matchedNames (cs : List Char) (t : Tier) : List String :=
  (tierMatched cs t).map (fun p => p.name)

/-- One step of the highest-scoring-tier loop: the accumulator is
(result tier, running max score, result pattern names) and is replaced only
on a strictly higher score. -/
def selStep (cs : List Char) (acc : Tier × ℚ × List String) (t : Tier) :
    Tier × ℚ × List String :=
  if tierScore cs t > acc.2.1 then (t, tierScore cs t, matchedNames cs t) else acc

/-- The highest-scoring-tier loop of `Classify` (lines 107–115), iterating
the tiers in the order `order` — the order in which Go happens to iterate
the score map.  The initial accumulator is the default result:
tier standard, max score 0, no patterns. -/
def selectTier (cs : List Char) (order : List Tier) : Tier × ℚ × List String :=
  order.foldl (selStep cs) (Tier.standard, (0 : ℚ), ([] : List String))

/-- `Classifier.estimateLines`. -/
def estimateLines (cs : List Char) : Int :=
  if hasSub cs "single line" || hasSub cs "one line" then 1
  else if hasSub cs "few lines" then 5
  else if hasSub cs "small" || hasSub cs "minor" then 20
  else if hasSub cs "large" || hasSub cs "major" || hasSub cs "significant" then 200
  else if hasSub cs "entire" || hasSub cs "complete" || hasSub cs "full" then 500
  else 50

/-- `Classifier.estimateFiles`. -/
def estimateFiles (cs : List Char) : Int :=
  if hasSub cs "single file" || hasSub cs "one file" || hasSub cs "this file" then 1
  else if hasSub cs "multiple file" || hasSub cs "several file" then 5
  else if hasSub cs "across" || hasSub cs "throughout" then 10
  else if hasSub cs "codebase" || hasSub cs "project-wide" then 20
  else 2

/-- `Classifier.adjustTierByScope`.  The Go body is a sequence of guarded
early returns; each branch below is one of those returns, with the
fall-through conditions made explicit. -/
def adjustTierByScope (tier : Tier) (lines files : Int) : Tier :=
  if (lines > 500 ∨ files > 10) ∧ tier.toNat < Tier.complex.toNat then Tier.complex
  else if (lines > 200 ∨ files > 5) ∧ tier.toNat < Tier.standard.toNat then Tier.standard
  else if lines < 10 ∧ files = 1 ∧ tier.toNat > Tier.simple.toNat then Tier.simple
  else tier

/-- `Classifier.recommendBackend`.  The tier-config lookup always succeeds
(the map holds every tier), so the Go fallback to `BackendClaudeSonnet` is
dead and the embedding is the direct lookup. -/
def recommendBackend (t : Tier) : String :=
  (defaultTierConfigs t).primaryBackend

/-- `strings.Join`. -/
def joinWith (sep : String) : List String → String
  | [] => ""
  | [s] => s
  | s :: rest => s ++ sep ++ joinWith sep rest

/-- `Classifier.generateReasoning`. -/
def generateReasoning (tier : Tier) (patterns : List String) (lines files : Int) : String :=
  joinWith ". "
    (["Tier: " ++ tierName tier] ++
     (if patterns.isEmpty then [] else ["Matched patterns: " ++ joinWith ", " patterns]) ++
     ["Estimated scope: ~" ++ toString lines ++ " lines across " ++
       toString files ++ " file(s)"])

/-- `types.ClassificationResult`. -/
structure ClassificationResult where
  tier : Tier
  confidence : ℚ
  recommendedBackend : String
  reasoning : String
  patterns : List String
  estimatedLines : Int
  estimatedFiles : Int
deriving DecidableEq, Repr

/-- `Classifier.Classify(title, description)`, with the unspecified
iteration order of the tier-score map passed in as `order` (see the header
comment). -/
def Classify (order : List Tier) (title description : String) : ClassificationResult :=
  let cs := textOf title description
  let sel := selectTier cs order
  let confidence : ℚ := if sel.2.1 > 0 then min 0.95 (0.5 + sel.2.1 * 0.15) else 0.5
  let lines := estimateLines cs
  let files := estimateFiles cs
  let tier := adjustTierByScope sel.1 lines files
  ⟨tier, confidence, recommendBackend tier,
   generateReasoning tier sel.2.2 lines files, sel.2.2, lines, files⟩

/-! ## Ledger (`internal/ledger/ledger.go`)

SQLite is embedded as an in-memory state: the `tasks` and `executions`
tables are append-only lists (inserts append, so list order is insertion
order), and writes succeed.  `CURRENT_TIMESTAMP` defaults and the caller's
random row ids are explicit parameters. -/

/-- A row of the `tasks` table (`ledger.Task`). -/
structure LTask where
  id : String
  parentId : Option String
  title : String
  description : String
  tier : Nat
  status : String
  workerBackend : String
  contextPath : String
  createdAt : Nat
  updatedAt : Nat
deriving DecidableEq, Repr

/-- A row of the `executions` table (`ledger.Execution`). -/
structure LExec where
  id : String
  taskId : String
  workerId : String
  backend : String
  inputHash : String
  output : String
  tokensUsed : Int
  costUsd : ℚ
  durationMs : Int
  status : String
  errorMsg : String
  createdAt : Nat
deriving DecidableEq, Repr

/-- The persistent state of one ledger database. -/
structure LedgerState where
  tasks : List LTask
  execs : List LExec
deriving DecidableEq, Repr

def emptyLedger : LedgerState := ⟨[], []⟩

/-- `Ledger.CreateTask`: a plain INSERT. -/
def createTask (st : LedgerState) (t : LTask) : LedgerState :=
  { st with tasks := st.tasks ++ [t] }

/-- `Ledger.CreateExecution`: a plain INSERT. -/
def createExecution (st : LedgerState) (e : LExec) : LedgerState :=
  { st with execs := st.execs ++ [e] }

/-- `Ledger.UpdateTaskStatus`:
`UPDATE tasks SET status = ?, updated_at = CURRENT_TIMESTAMP WHERE id = ?`,
with the current time passed as `now`. -/
def updateTaskStatus (st : LedgerState) (id status : String) (now : Nat) : LedgerState :=
  { st with
      tasks := st.tasks.map
        (fun t =>
          if t.id == id then
            { t with
                status := status
                updatedAt := now }
          else t) }

/-- `ledger.Stats`. -/
structure Stats where
  totalTasks : Nat
  pendingTasks : Nat
  completedTasks : Nat
  totalExecutions : Nat
  claudeTasks : Nat
  claudeCost : ℚ
  geminiTasks : Nat
  geminiCost : ℚ
  ollamaTasks : Nat
  ollamaCost : ℚ
  estimatedSavings : ℚ
  savingsPercent : ℚ
deriving DecidableEq, Repr

/-- SQLite `backend LIKE 'cls%'` for a lower-case class `cls`: LIKE is
ASCII-case-insensitive, and a pattern whose only wildcard is a trailing `%`
is a prefix test. -/
def backendLike (cls : String) (b : String) : Bool :=
  listStarts (b.data.map asciiLowerChar) cls.data

/-- `Ledger.GetStats`.  Each field is the obvious reading of the
corresponding SQL aggregate; `COALESCE(SUM(cost_usd), 0)` is the fold with
initial value 0. -/
def getStats (st : LedgerState) : Stats :=
  let claudeEx := st.execs.filter (fun e => backendLike "claude:" e.backend)
  let geminiEx := st.execs.filter (fun e => backendLike "gemini:" e.backend)
  let ollamaEx := st.execs.filter (fun e => backendLike "ollama:" e.backend)
  let claudeCost := (claudeEx.map (fun e => e.costUsd)).sum
  let geminiCost := (geminiEx.map (fun e => e.costUsd)).sum
  let ollamaCost := (ollamaEx.map (fun e => e.costUsd)).sum
  let nonClaude : Nat := ollamaEx.length + geminiEx.length
  let estSavings : ℚ := (nonClaude : ℚ) * 0.05 - geminiCost
  let savingsPercent : ℚ :=
    if claudeCost + geminiCost + estSavings > 0 then
      estSavings / (claudeCost + geminiCost + estSavings) * 100
    else 0
  ⟨st.tasks.length,
   (st.tasks.filter (fun t =>
     t.status == "pending" || t.status == "assigned" ||
     t.status == "working" || t.status == "validating")).length,
   (st.tasks.filter (fun t => t.status == "done")).length,
   st.execs.length,
   claudeEx.length, claudeCost,
   geminiEx.length, geminiCost,
   ollamaEx.length, ollamaCost,
   estSavings, savingsPercent⟩

/-! ## Conductor (`internal/conductor/conductor.go`) -/

/-- `types.ExecutionResult`, as produced by a worker's `Execute`. -/
structure ExecutionResult where
  taskId : String
  backend : String
  success : Bool
  output : String
  diff : String
  tokensUsed : Int
  costUsd : ℚ
  durationMs : Int
  errorMsg : String
deriving DecidableEq, Repr

/-- A registered worker handle: its backend identity, its availability
flag, and the outcome its `Execute` would produce for the run under
consideration (`Except.error` is a transport error, `Except.ok` a returned
result). -/
structure WorkerM where
  backend : String
  available : Bool
  execResult : Except String ExecutionResult
deriving Repr

/-- The conductor's worker registry `map[types.Backend]Worker`. -/
def Workers : Type := String → Option WorkerM

/-- A registry with no workers registered. -/
def emptyWorkers : Workers := fun _ => none

/-- The tier-specific fallback candidate lists of `findFallbackWorker`. -/
def fallbackList : Tier → List String
  | .trivial | .simple => [BackendOllama, BackendOllamaFast, BackendClaudeHaiku]
  | .standard => [BackendClaudeSonnet, BackendOllamaReason, BackendClaudeHaiku]
  | .complex | .critical => [BackendClaudeOpus, BackendClaudeSonnet]

/-- The scan of `findFallbackWorker`: first candidate that is registered
and reports available; a registered-but-unavailable candidate is skipped. -/
def firstAvailable (workers : Workers) : List String → Option WorkerM
  | [] => none
  | b :: rest =>
    match workers b with
    | some w => if w.available then some w else firstAvailable workers rest
    | none => firstAvailable workers rest

/-- `Conductor.findFallbackWorker`. -/
def findFallbackWorker (workers : Workers) (t : Tier) : Option WorkerM :=
  firstAvailable workers (fallbackList t)

/-- `conductor.RunResult` (the fields the embedded pipeline writes). -/
structure RunResultM where
  taskId : String
  classification : Option ClassificationResult
  actualBackend : String
  fallbackBackend : String
  workerAvailable : Bool
  execution : Option ExecutionResult
  status : String
  error : String
  validationRequired : Bool
  validationPending : Bool
  dryRun : Bool
deriving DecidableEq, Repr

/-- The zero value of `RunResult`. -/
def emptyRunResult : RunResultM :=
  ⟨"", none, "", "", false, none, "", "", false, false, false⟩

/-- `Conductor.Run`.  Ledger writes always succeed in the embedding, so the
hard-error returns of the Go code (ledger failures) do not occur; every
other path is embedded, including the two early `failed` returns and the
(unreachable) failed-execution branch when building the execution row.
`taskId`/`execId` stand for the two `generateID()` calls, `now` for the
wall clock, and `elapsedMs` for the measured execution duration. -/
def conductorRun (workers : Workers) (order : List Tier) (taskId execId : String)
    (now : Nat) (elapsedMs : Int) (title description : String)
    (st : LedgerState) : RunResultM × LedgerState :=
  let cls := Classify order title description
  let task : LTask :=
    ⟨taskId, none, title, description, cls.tier.toNat, "pending",
     cls.recommendedBackend, "", now, now⟩
  let st1 := createTask st task
  let base : RunResultM := { emptyRunResult with taskId := taskId, classification := some cls }
  let chosen : Option (WorkerM × String) :=
    match workers cls.recommendedBackend with
    | some w =>
      if w.available then some (w, cls.recommendedBackend)
      else
        match findFallbackWorker workers cls.tier with
        | some w2 => some (w2, w2.backend)
        | none => none
    | none =>
      match findFallbackWorker workers cls.tier with
      | some w2 => some (w2, w2.backend)
      | none => none
  match chosen with
  | none =>
    ({ base with error := "no available worker for this task tier", status := "failed" }, st1)
  | some (w, actual) =>
    let st2 := updateTaskStatus st1 taskId "working" now
    match w.execResult with
    | .error msg =>
      ({ base with actualBackend := actual, error := msg, status := "failed" },
       updateTaskStatus st2 taskId "failed" now)
    | .ok er =>
      if er.success then
        let exec0 : LExec :=
          ⟨execId, taskId, "", actual, "", er.output, er.tokensUsed, er.costUsd,
           elapsedMs, "completed", "", now⟩
        let exec :=
          if !er.success then
            { exec0 with
                status := "failed"
                errorMsg := er.errorMsg }
          else exec0
        let st3 := createExecution st2 exec
        let vreq := (defaultTierConfigs cls.tier).validatorCount > 0
        let res1 :=
          { base with
              actualBackend := actual
              execution := some er
              validationRequired := vreq
              validationPending := vreq }
        if vreq then
          ({ res1 with status := "validating" }, updateTaskStatus st3 taskId "validating" now)
        else
          ({ res1 with status := "done" }, updateTaskStatus st3 taskId "done" now)
      else
        ({ base with
             actualBackend := actual
             execution := some er
             error := er.errorMsg
             status := "failed" },
         updateTaskStatus st2 taskId "failed" now)

/-- `Conductor.DryRun`.  The Go method reads only the classifier and the
worker registry; it makes no ledger call on any path, so the ledger state
is passed through untouched. -/
def conductorDryRun (workers : Workers) (order : List Tier)
    (title description : String) (st : LedgerState) : RunResultM × LedgerState :=
  let cls := Classify order title description
  let workerAvailable :=
    match workers cls.recommendedBackend with
    | some w => w.available
    | none => false
  let fb : String :=
    if workerAvailable then ""
    else
      match findFallbackWorker workers cls.tier with
      | some w => w.backend
      | none => ""
  ({ emptyRunResult with
       classification := some cls
       actualBackend := cls.recommendedBackend
       fallbackBackend := fb
       workerAvailable := workerAvailable
       validationRequired := (defaultTierConfigs cls.tier).validatorCount > 0
       dryRun := true }, st)

/-! ## Derived notions used by the statements -/

/-- One step of a pure running maximum over tier scores. -/
def maxStep (cs : List Char) (m : ℚ) (t : Tier) : ℚ :=
  max m (tierScore cs t)

/-- The maximal accumulated score over all tiers (at least 0, the initial
value of the Go loop's running maximum). -/
def maxScoreOf (cs : List Char) : ℚ :=
  allTiers.foldl (maxStep cs) 0

/-- Decidable "no pattern of any tier matches the text". -/
def noMatchB (cs : List Char) : Bool :=
  allTiers.all (fun t => (tierMatched cs t).isEmpty)

/-- The text has no score tie at the top: either nothing matched at all, or
exactly one tier attains the maximal score.  This is the condition under
which the winning tier does not depend on Go's map iteration order. -/
def ScoreTieFree (cs : List Char) : Prop :=
  maxScoreOf cs = 0 ∨
    ∀ t1 t2, tierScore cs t1 = maxScoreOf cs → tierScore cs t2 = maxScoreOf cs → t1 = t2

/-! ## Concrete scenario data used by witnesses and counterexamples -/

/-- The five tiers in the reverse iteration order: one of the orders in
which Go may iterate the tier-score map. -/
def revTiers : List Tier := [.critical, .complex, .standard, .simple, .trivial]

/-- A Claude Sonnet worker that is available and succeeds. -/
def wSonnet : WorkerM :=
  ⟨BackendClaudeSonnet, true, .ok ⟨"", "", true, "out", "", 3, 0, 4, ""⟩⟩

/-- A registry holding only the Sonnet worker. -/
def sonnetOnly : Workers :=
  fun b => if b == BackendClaudeSonnet then some wSonnet else none

/-! ## Helper lemmas: the highest-scoring-tier loop -/

theorem mem_allTiers (t : Tier) : t ∈ allTiers := by
  cases t <;> decide

theorem selStep_snd (cs : List Char) (acc : Tier × ℚ × List String) (t : Tier) :
    (selStep cs acc t).2.1 = maxStep cs acc.2.1 t := by
  unfold selStep maxStep
  rcases le_or_lt (tierScore cs t) acc.2.1 with h | h
  · rw [if_neg (not_lt.mpr h), max_eq_left h]
  · rw [if_pos h, max_eq_right h.le]

theorem foldl_sel_snd (cs : List Char) (l : List Tier) :
    ∀ acc : Tier × ℚ × List String,
      (l.foldl (selStep cs) acc).2.1 = l.foldl (maxStep cs) acc.2.1 := by
  induction l with
  | nil => intro acc; rfl
  | cons t rest ih =>
    intro acc
    simp only [List.foldl_cons, ih, selStep_snd]

theorem le_foldl_maxStep (cs : List Char) (l : List Tier) :
    ∀ a : ℚ, a ≤ l.foldl (maxStep cs) a := by
  induction l with
  | nil => intro a; exact le_refl a
  | cons t rest ih =>
    intro a
    exact le_trans (le_max_left a (tierScore cs t)) (ih (maxStep cs a t))

theorem score_le_foldl_maxStep (cs : List Char) (l : List Tier) :
    ∀ a : ℚ, ∀ t ∈ l, tierScore cs t ≤ l.foldl (maxStep cs) a := by
  induction l with
  | nil => intro a t ht; cases ht
  | cons u rest ih =>
    intro a t ht
    rcases List.mem_cons.mp ht with h | h
    · subst h
      exact le_trans (le_max_right a (tierScore cs t))
        (le_foldl_maxStep cs rest (maxStep cs a t))
    · exact ih (maxStep cs a u) t h

theorem foldl_maxStep_le (cs : List Char) (l : List Tier) :
    ∀ a b : ℚ, (∀ t ∈ l, tierScore cs t ≤ b) → a ≤ b → l.foldl (maxStep cs) a ≤ b := by
  induction l with
  | nil => intro a b _ hab; exact hab
  | cons u rest ih =>
    intro a b hl hab
    refine ih (maxStep cs a u) b (fun t ht => hl t (List.mem_cons_of_mem u ht)) ?_
    exact max_le hab (hl u (List.mem_cons_self u rest))

theorem maxScore_nonneg (cs : List Char) : 0 ≤ maxScoreOf cs :=
  le_foldl_maxStep cs allTiers 0

theorem tierScore_le_maxScore (cs : List Char) (t : Tier) :
    tierScore cs t ≤ maxScoreOf cs :=
  score_le_foldl_maxStep cs allTiers 0 t (mem_allTiers t)

/-- Folding the running maximum over any list that contains every tier
computes the same value as folding it over `allTiers`. -/
theorem foldl_maxStep_covers (cs : List Char) (order : List Tier)
    (h : ∀ t, t ∈ order) :
    order.foldl (maxStep cs) 0 = maxScoreOf cs := by
  apply le_antisymm
  · exact foldl_maxStep_le cs order 0 (maxScoreOf cs)
      (fun t _ => tierScore_le_maxScore cs t) (maxScore_nonneg cs)
  · exact foldl_maxStep_le cs allTiers 0 (order.foldl (maxStep cs) 0)
      (fun t _ => score_le_foldl_maxStep cs order 0 t (h t))
      (le_foldl_maxStep cs order 0)

theorem foldl_maxStep_attained (cs : List Char) (l : List Tier) :
    ∀ a : ℚ, l.foldl (maxStep cs) a = a ∨
      ∃ t ∈ l, l.foldl (maxStep cs) a = tierScore cs t := by
  induction l with
  | nil => intro a; exact Or.inl rfl
  | cons u rest ih =>
    intro a
    rcases ih (maxStep cs a u) with h | ⟨t, ht, h⟩
    · rcases max_choice a (tierScore cs u) with hm | hm
      · exact Or.inl (by rw [List.foldl_cons, h, maxStep, hm])
      · exact Or.inr ⟨u, List.mem_cons_self u rest, by rw [List.foldl_cons, h, maxStep, hm]⟩
    · exact Or.inr ⟨t, List.mem_cons_of_mem u ht, by rw [List.foldl_cons, h]⟩

theorem maxScore_attained (cs : List Char) :
    maxScoreOf cs = 0 ∨ ∃ t, tierScore cs t = maxScoreOf cs := by
  rcases foldl_maxStep_attained cs allTiers 0 with h | ⟨t, _, h⟩
  · exact Or.inl h
  · exact Or.inr ⟨t, h.symm⟩

/-- If no tier in the remaining list can beat the accumulator, the loop
leaves the accumulator unchanged. -/
theorem sel_stay (cs : List Char) (l : List Tier) :
    ∀ acc : Tier × ℚ × List String, (∀ t ∈ l, tierScore cs t ≤ acc.2.1) →
      l.foldl (selStep cs) acc = acc := by
  induction l with
  | nil => intro acc _; rfl
  | cons u rest ih =>
    intro acc h
    have hu : ¬ tierScore cs u > acc.2.1 := not_lt.mpr (h u (List.mem_cons_self u rest))
    simp only [List.foldl_cons, selStep, if_neg hu]
    exact ih acc (fun t ht => h t (List.mem_cons_of_mem u ht))

/-- If `t0` is the unique tier attaining the strictly positive maximum of
the scores in the list, the loop ends on `t0` with its score and patterns,
whatever starting accumulator below the maximum it began from. -/
theorem sel_winner (cs : List Char) (t0 : Tier) (l : List Tier) :
    ∀ acc : Tier × ℚ × List String,
      acc.2.1 < tierScore cs t0 → t0 ∈ l →
      (∀ t ∈ l, tierScore cs t ≤ tierScore cs t0) →
      (∀ t, tierScore cs t = tierScore cs t0 → t = t0) →
      l.foldl (selStep cs) acc = (t0, tierScore cs t0, matchedNames cs t0) := by
  induction l with
  | nil => intro acc _ h0 _ _; cases h0
  | cons u rest ih =>
    intro acc hacc h0 hle huniq
    by_cases hu : u = t0
    · subst hu
      simp only [List.foldl_cons, selStep, if_pos hacc]
      exact sel_stay cs rest (u, tierScore cs u, matchedNames cs u)
        (fun t ht => hle t (List.mem_cons_of_mem u ht))
    · have hlt : tierScore cs u < tierScore cs t0 :=
        lt_of_le_of_ne (hle u (List.mem_cons_self u rest))
          (fun he => hu (huniq u he))
      have h0' : t0 ∈ rest := by
        rcases List.mem_cons.mp h0 with h | h
        · exact absurd h.symm hu
        · exact h
      simp only [List.foldl_cons, selStep]
      by_cases hcond : tierScore cs u > acc.2.1
      · rw [if_pos hcond]
        exact ih (u, tierScore cs u, matchedNames cs u) hlt h0'
          (fun t ht => hle t (List.mem_cons_of_mem u ht)) huniq
      · rw [if_neg hcond]
        exact ih acc hacc h0'
          (fun t ht => hle t (List.mem_cons_of_mem u ht)) huniq

theorem selectTier_snd (cs : List Char) (order : List Tier) (h : ∀ t, t ∈ order) :
    (selectTier cs order).2.1 = maxScoreOf cs := by
  unfold selectTier
  rw [foldl_sel_snd]
  exact foldl_maxStep_covers cs order h

/-- With a zero maximal score nothing can beat the initial accumulator, so
the loop returns the default: tier standard, score 0, no patterns. -/
theorem selectTier_of_maxZero (cs : List Char) (order : List Tier)
    (h : maxScoreOf cs = 0) :
    selectTier cs order = (Tier.standard, (0 : ℚ), ([] : List String)) := by
  unfold selectTier
  exact sel_stay cs order _ (fun t _ => by
    simpa [h] using tierScore_le_maxScore cs t)

/-! ## Helper lemmas: scores and matches -/

theorem pattern_weight_pos (t : Tier) (p : Pattern) (hp : p ∈ patternTable t) :
    (0 : ℚ) < p.weight := by
  cases t <;>
    simp only [patternTable, trivialPatterns, simplePatterns, standardPatterns,
      complexPatterns, criticalPatterns, List.mem_cons, List.not_mem_nil, or_false] at hp <;>
    rcases hp with h | h | h | h | h | h <;> subst h <;> norm_num

theorem foldl_add_weights_le (l : List Pattern) :
    ∀ a b : ℚ, a ≤ b → (∀ p ∈ l, (0:ℚ) ≤ p.weight) →
      a ≤ l.foldl (fun s p => s + p.weight) b := by
  induction l with
  | nil => intro a b hab _; exact hab
  | cons p rest ih =>
    intro a b hab h
    refine ih a (b + p.weight) ?_ (fun q hq => h q (List.mem_cons_of_mem p hq))
    exact le_trans hab (le_add_of_nonneg_right (h p (List.mem_cons_self p rest)))

theorem tierMatched_subset (cs : List Char) (t : Tier) (p : Pattern)
    (hp : p ∈ tierMatched cs t) : p ∈ patternTable t :=
  List.mem_of_mem_filter hp

theorem tierScore_nonneg (cs : List Char) (t : Tier) : 0 ≤ tierScore cs t := by
  unfold tierScore
  exact foldl_add_weights_le (tierMatched cs t) 0 0 (le_refl 0)
    (fun p hp => (pattern_weight_pos t p (tierMatched_subset cs t p hp)).le)

theorem tierScore_zero_of_unmatched (cs : List Char) (t : Tier)
    (h : tierMatched cs t = []) : tierScore cs t = 0 := by
  unfold tierScore
  rw [h]
  rfl

theorem tierScore_pos_of_matched (cs : List Char) (t : Tier)
    (h : tierMatched cs t ≠ []) : 0 < tierScore cs t := by
  rcases List.exists_cons_of_ne_nil h with ⟨p, rest, hcons⟩
  have hp : p ∈ patternTable t :=
    tierMatched_subset cs t p (hcons ▸ List.mem_cons_self p rest)
  unfold tierScore
  rw [hcons]
  have : (0:ℚ) + p.weight ≤ (p :: rest).foldl (fun s q => s + q.weight) 0 := by
    rw [List.foldl_cons]
    exact foldl_add_weights_le rest (0 + p.weight) (0 + p.weight) (le_refl _)
      (fun q hq =>
        (pattern_weight_pos t q (tierMatched_subset cs t q
          (hcons ▸ List.mem_cons_of_mem p hq))).le)
  calc (0:ℚ) < 0 + p.weight := by
        simpa using pattern_weight_pos t p hp
    _ ≤ _ := this

theorem noMatchB_true_iff (cs : List Char) :
    noMatchB cs = true ↔ ∀ t, tierMatched cs t = [] := by
  unfold noMatchB
  rw [List.all_eq_true]
  constructor
  · intro h t
    exact List.isEmpty_iff.mp (h t (mem_allTiers t))
  · intro h t _
    exact List.isEmpty_iff.mpr (h t)

theorem maxScore_zero_of_nomatch (cs : List Char) (h : ∀ t, tierMatched cs t = []) :
    maxScoreOf cs = 0 := by
  apply le_antisymm
  · exact foldl_maxStep_le cs allTiers 0 0
      (fun t _ => le_of_eq (tierScore_zero_of_unmatched cs t (h t))) (le_refl 0)
  · exact maxScore_nonneg cs

theorem maxScore_pos_of_match (cs : List Char) (t : Tier)
    (h : tierMatched cs t ≠ []) : 0 < maxScoreOf cs :=
  lt_of_lt_of_le (tierScore_pos_of_matched cs t h) (tierScore_le_maxScore cs t)

/-! ## Helper lemmas: projections of `Classify` -/

theorem classify_confidence (order : List Tier) (title descr : String) :
    (Classify order title descr).confidence =
      (if (selectTier (textOf title descr) order).2.1 > 0
       then min 0.95 (0.5 + (selectTier (textOf title descr) order).2.1 * 0.15)
       else (0.5 : ℚ)) := rfl

theorem classify_patterns (order : List Tier) (title descr : String) :
    (Classify order title descr).patterns = (selectTier (textOf title descr) order).2.2 := rfl

theorem classify_tier (order : List Tier) (title descr : String) :
    (Classify order title descr).tier =
      adjustTierByScope (selectTier (textOf title descr) order).1
        (estimateLines (textOf title descr)) (estimateFiles (textOf title descr)) := rfl

/-! ## Claim C1 -/

/-- Claim C1, amended.  The claim as stated — two calls of `Classify` with
identical inputs return an identical tier, confidence and pattern list —
fails because Go iterates the tier-score map in an unspecified order and
breaks score ties by whichever tier it happens to visit first
(`c1_counterexample`).  What does hold: the confidence is identical for any
two iteration orders, and when the text has no score tie at the top
(`ScoreTieFree`) the whole classification result — tier, confidence and
matched-pattern list included — is identical as well. -/
theorem c1_classify_deterministic (title descr : String)
    (o1 o2 : List Tier) (h1 : ∀ t, t ∈ o1) (h2 : ∀ t, t ∈ o2) :
    (Classify o1 title descr).confidence = (Classify o2 title descr).confidence ∧
    (ScoreTieFree (textOf title descr) →
      Classify o1 title descr = Classify o2 title descr) := by
  constructor
  · rw [classify_confidence, classify_confidence,
      selectTier_snd _ o1 h1, selectTier_snd _ o2 h2]
  · intro htie
    have hsel : selectTier (textOf title descr) o1 = selectTier (textOf title descr) o2 := by
      by_cases hz : maxScoreOf (textOf title descr) = 0
      · rw [selectTier_of_maxZero _ o1 hz, selectTier_of_maxZero _ o2 hz]
      · rcases htie with h | huniq
        · exact absurd h hz
        · rcases maxScore_attained (textOf title descr) with h | ⟨t0, ht0⟩
          · exact absurd h hz
          · have hpos : (Tier.standard, (0:ℚ), ([] : List String)).2.1 <
                tierScore (textOf title descr) t0 := by
              rw [ht0]
              exact lt_of_le_of_ne (maxScore_nonneg _) (Ne.symm hz)
            have hw : ∀ (o : List Tier), (∀ t, t ∈ o) →
                selectTier (textOf title descr) o =
                  (t0, tierScore (textOf title descr) t0,
                   matchedNames (textOf title descr) t0) := by
              intro o ho
              unfold selectTier
              exact sel_winner (textOf title descr) t0 o _ hpos (ho t0)
                (fun t _ => ht0 ▸ tierScore_le_maxScore _ t)
                (fun t ht => huniq t t0 (ht.trans ht0) ht0)
            rw [hw o1 h1, hw o2 h2]
    simp only [Classify, hsel]

/-- Counterexample to claim C1 as stated: "fix the typo in the security
notes" scores 0.9 for both the trivial tier (pattern `typo`) and the
critical tier (pattern `security`); iterating the score map critical-first
yields the critical tier with the pattern list holding `security`,
iterating it trivial-first yields the trivial tier with the pattern list
holding `typo`. -/
theorem c1_counterexample :
    ((Classify revTiers "fix the typo" "in the security notes").tier ≠
      (Classify allTiers "fix the typo" "in the security notes").tier) ∧
    ((Classify revTiers "fix the typo" "in the security notes").patterns ≠
      (Classify allTiers "fix the typo" "in the security notes").patterns) := by
  have hs0 : tierScore (textOf "fix the typo" "in the security notes") Tier.trivial
      = 0 + (0.9:ℚ) := rfl
  have hs1 : tierScore (textOf "fix the typo" "in the security notes") Tier.simple = 0 := rfl
  have hs2 : tierScore (textOf "fix the typo" "in the security notes") Tier.standard = 0 := rfl
  have hs3 : tierScore (textOf "fix the typo" "in the security notes") Tier.complex = 0 := rfl
  have hs4 : tierScore (textOf "fix the typo" "in the security notes") Tier.critical
      = 0 + (0.9:ℚ) := rfl
  have hn0 : matchedNames (textOf "fix the typo" "in the security notes") Tier.trivial
      = ["typo"] := rfl
  have hn4 : matchedNames (textOf "fix the typo" "in the security notes") Tier.critical
      = ["security"] := rfl
  have hselR : selectTier (textOf "fix the typo" "in the security notes") revTiers
      = (Tier.critical, 0 + (0.9:ℚ), ["security"]) := by
    norm_num [selectTier, revTiers, List.foldl, selStep, hs0, hs1, hs2, hs3, hs4, hn4]
  have hselA : selectTier (textOf "fix the typo" "in the security notes") allTiers
      = (Tier.trivial, 0 + (0.9:ℚ), ["typo"]) := by
    norm_num [selectTier, allTiers, List.foldl, selStep, hs0, hs1, hs2, hs3, hs4, hn0]
  have hl : estimateLines (textOf "fix the typo" "in the security notes") = 50 := rfl
  have hf : estimateFiles (textOf "fix the typo" "in the security notes") = 2 := rfl
  constructor
  · rw [classify_tier, classify_tier, hselR, hselA, hl, hf]
    decide
  · rw [classify_patterns, classify_patterns, hselR, hselA]
    decide

/-- Witness for C1: at "fix the typo" only the trivial tier scores (0.9),
so the text is tie-free and the classification result is the same for the
forward and the reverse iteration order. -/
theorem c1_classify_deterministic_witness :
    Classify allTiers "fix the typo" "" = Classify revTiers "fix the typo" "" := by
  have hs0 : tierScore (textOf "fix the typo" "") Tier.trivial = 0 + (0.9:ℚ) := rfl
  have hs1 : tierScore (textOf "fix the typo" "") Tier.simple = 0 := rfl
  have hs2 : tierScore (textOf "fix the typo" "") Tier.standard = 0 := rfl
  have hs3 : tierScore (textOf "fix the typo" "") Tier.complex = 0 := rfl
  have hs4 : tierScore (textOf "fix the typo" "") Tier.critical = 0 := rfl
  have hM : maxScoreOf (textOf "fix the typo" "") = 0 + (0.9:ℚ) := by
    simp only [maxScoreOf, allTiers, List.foldl, maxStep, hs0, hs1, hs2, hs3, hs4]
    norm_num [max_def]
  refine (c1_classify_deterministic "fix the typo" "" allTiers revTiers
    (by decide) (by decide)).2 ?_
  refine Or.inr ?_
  intro t1 t2 e1 e2
  rcases t1 <;> rcases t2 <;>
    simp only [hs0, hs1, hs2, hs3, hs4, hM] at e1 e2 <;>
    first
    | rfl
    | (exfalso; norm_num at e1 e2)

/-! ## Claim C2 -/

/-- Claim C2, amended.  The claim as stated — a text containing "across the
entire codebase" with no other signal yields at least the complex tier via
the file-count clamp — fails: `estimateFiles` returns 10 for "across", and
the complex clamp requires strictly more than 10 files (or more than 500
lines, while "entire" estimates exactly 500), so only the
at-least-standard clamp fires (`c2_counterexample`).  Amended: a text that
matches no classification pattern and carries exactly these scope
estimates (500 lines, 10 files) is classified standard — the default tier,
kept by the clamp. -/
theorem c2_scope_clamp (title descr : String) (order : List Tier)
    (hm : noMatchB (textOf title descr) = true)
    (hl : estimateLines (textOf title descr) = 500)
    (hf : estimateFiles (textOf title descr) = 10) :
    (Classify order title descr).tier = Tier.standard := by
  have hz : maxScoreOf (textOf title descr) = 0 :=
    maxScore_zero_of_nomatch _ ((noMatchB_true_iff _).mp hm)
  rw [classify_tier, selectTier_of_maxZero _ order hz, hl, hf]
  decide

/-- Counterexample to claim C2 as stated: "across the entire codebase"
matches no pattern (in particular not `cross_cutting`, which requires
"across" to be followed directly by codebase/project/system), estimates
500 lines and 10 files, and is classified standard — strictly below
complex. -/
theorem c2_counterexample :
    (Classify allTiers "" "across the entire codebase").tier = Tier.standard ∧
    Tier.standard.toNat < Tier.complex.toNat := ⟨rfl, by decide⟩

/-- Witness for C2: the amended theorem applied to the text
"across the entire codebase" itself. -/
theorem c2_scope_clamp_witness :
    (Classify revTiers "" "across the entire codebase").tier = Tier.standard :=
  c2_scope_clamp "" "across the entire codebase" revTiers (by decide) (by decide) (by decide)

/-! ## Claim C5 -/

/-- Claim C5, amended.  The confidence part of the claim holds exactly as
stated: with no pattern match the confidence is 0.5, otherwise it is
min(0.95, 0.5 + winning score × 0.15) computed from the winning score
alone (the runner-up score does not appear).  The tier part fails as
stated: with no pattern match the *pre-scope-adjustment* tier is the
standard default, but the returned tier can still be moved by the scope
clamp (`c5_counterexample`). -/
theorem c5_confidence_formula (title descr : String) (order : List Tier)
    (ho : ∀ t, t ∈ order) :
    (noMatchB (textOf title descr) = true →
      (Classify order title descr).confidence = 0.5 ∧
      (selectTier (textOf title descr) order).1 = Tier.standard) ∧
    (noMatchB (textOf title descr) = false →
      (Classify order title descr).confidence =
        min 0.95 (0.5 + maxScoreOf (textOf title descr) * 0.15)) := by
  constructor
  · intro hm
    have hz : maxScoreOf (textOf title descr) = 0 :=
      maxScore_zero_of_nomatch _ ((noMatchB_true_iff _).mp hm)
    constructor
    · rw [classify_confidence, selectTier_snd _ order ho, hz]
      norm_num
    · rw [selectTier_of_maxZero _ order hz]
  · intro hm
    have hex : ∃ t, tierMatched (textOf title descr) t ≠ [] := by
      by_contra h
      push_neg at h
      rw [(noMatchB_true_iff _).mpr h] at hm
      cases hm
    rcases hex with ⟨t, ht⟩
    have hpos : maxScoreOf (textOf title descr) > 0 := maxScore_pos_of_match _ t ht
    rw [classify_confidence, selectTier_snd _ order ho, if_pos hpos]

/-- Counterexample to claim C5 as stated: "codebase" matches no pattern and
indeed gets confidence 0.5, but its file estimate is 20 (> 10), so the
scope clamp escalates the returned tier to complex, not standard. -/
theorem c5_counterexample :
    (Classify allTiers "" "codebase").patterns = [] ∧
    (Classify allTiers "" "codebase").confidence = 0.5 ∧
    (Classify allTiers "" "codebase").tier = Tier.complex ∧
    Tier.complex ≠ Tier.standard :=
  ⟨rfl, rfl, rfl, by decide⟩

/-- Witness for C5: the no-match branch at "do the thing" (confidence 0.5,
pre-scope tier standard) and the match branch at "fix the typo". -/
theorem c5_confidence_formula_witness :
    ((Classify allTiers "do" "the thing").confidence = 0.5 ∧
     (selectTier (textOf "do" "the thing") allTiers).1 = Tier.standard) ∧
    (Classify allTiers "fix the typo" "").confidence =
      min 0.95 (0.5 + maxScoreOf (textOf "fix the typo" "") * 0.15) :=
  ⟨(c5_confidence_formula "do" "the thing" allTiers (by decide)).1 (by decide),
   (c5_confidence_formula "fix the typo" "" allTiers (by decide)).2 (by decide)⟩

/-! ## Claim C10 -/

/-- Claim C10: the scope adjustment returns critical only when the input
tier is already critical, returns trivial only when the input is already
trivial, escalates at most to complex, and de-escalates at most to simple
(tiers compared through their underlying Go integers). -/
theorem c10_scope_adjust_bounds (t : Tier) (lines files : Int) :
    (adjustTierByScope t lines files = Tier.critical → t = Tier.critical) ∧
    (adjustTierByScope t lines files = Tier.trivial → t = Tier.trivial) ∧
    (Tier.toNat t < (adjustTierByScope t lines files).toNat →
      (adjustTierByScope t lines files).toNat ≤ Tier.complex.toNat) ∧
    ((adjustTierByScope t lines files).toNat < Tier.toNat t →
      Tier.simple.toNat ≤ (adjustTierByScope t lines files).toNat) := by
  unfold adjustTierByScope
  split_ifs with h1 h2 h3 <;> cases t <;> simp_all [Tier.toNat]

/-- Witness for C10: 600 lines escalate a standard-tier task, and the
escalated tier is at most complex. -/
theorem c10_scope_adjust_bounds_witness :
    Tier.toNat Tier.standard < (adjustTierByScope Tier.standard 600 2).toNat ∧
    (adjustTierByScope Tier.standard 600 2).toNat ≤ Tier.complex.toNat :=
  ⟨by decide, (c10_scope_adjust_bounds Tier.standard 600 2).2.2.1 (by decide)⟩

/-! ## Helper lemmas: the fallback scan -/

theorem firstAvailable_mem (workers : Workers) (l : List String) (w : WorkerM)
    (h : firstAvailable workers l = some w) :
    ∃ b ∈ l, workers b = some w ∧ w.available = true := by
  induction l with
  | nil => cases h
  | cons b rest ih =>
    unfold firstAvailable at h
    cases hb : workers b with
    | none =>
      rw [hb] at h
      rcases ih h with ⟨b', hb', hw, hav⟩
      exact ⟨b', List.mem_cons_of_mem b hb', hw, hav⟩
    | some w0 =>
      rw [hb] at h
      dsimp only at h
      by_cases hav : w0.available = true
      · rw [if_pos hav] at h
        injection h with h
        subst h
        exact ⟨b, List.mem_cons_self b rest, hb, hav⟩
      · rw [if_neg hav] at h
        rcases ih h with ⟨b', hb', hw, hav'⟩
        exact ⟨b', List.mem_cons_of_mem b hb', hw, hav'⟩

theorem firstAvailable_head (workers : Workers) (b : String) (rest : List String)
    (w : WorkerM) (hw : workers b = some w) (hav : w.available = true) :
    firstAvailable workers (b :: rest) = some w := by
  unfold firstAvailable
  rw [hw]
  dsimp only
  rw [if_pos hav]

/-! ## Claim C6 -/

/-- Claim C6: for the complex and critical tiers the fallback candidate
list is exactly claude:opus then claude:sonnet; an available opus worker is
returned first; any returned worker is the registered opus or sonnet
handle and is available; and (for a registry whose handles carry the
identity they are registered under, as `RegisterWorker` guarantees) the
returned worker's backend is opus or sonnet and never an `ollama:` one.
If neither candidate is registered and available, the scan returns none —
that is the contrapositive of the third conjunct. -/
theorem c6_fallback_complex_critical (workers : Workers) (t : Tier)
    (h : t = Tier.complex ∨ t = Tier.critical) :
    fallbackList t = [BackendClaudeOpus, BackendClaudeSonnet] ∧
    (∀ w, workers BackendClaudeOpus = some w → w.available = true →
      findFallbackWorker workers t = some w) ∧
    (∀ w, findFallbackWorker workers t = some w →
      ((workers BackendClaudeOpus = some w ∨ workers BackendClaudeSonnet = some w) ∧
        w.available = true)) ∧
    ((∀ b w', workers b = some w' → w'.backend = b) →
      ∀ w, findFallbackWorker workers t = some w →
        (w.backend = BackendClaudeOpus ∨ w.backend = BackendClaudeSonnet) ∧
        backendLike "ollama:" w.backend = false) := by
  have hfb : fallbackList t = [BackendClaudeOpus, BackendClaudeSonnet] := by
    rcases h with h | h <;> subst h <;> rfl
  have hmem : ∀ w, findFallbackWorker workers t = some w →
      ((workers BackendClaudeOpus = some w ∨ workers BackendClaudeSonnet = some w) ∧
        w.available = true) := by
    intro w hres
    unfold findFallbackWorker at hres
    rw [hfb] at hres
    rcases firstAvailable_mem workers _ w hres with ⟨b, hb, hw, hav⟩
    rcases List.mem_cons.mp hb with hb' | hb'
    · exact ⟨Or.inl (hb' ▸ hw), hav⟩
    · rcases List.mem_cons.mp hb' with hb'' | hb''
      · exact ⟨Or.inr (hb'' ▸ hw), hav⟩
      · cases hb''
  refine ⟨hfb, ?_, hmem, ?_⟩
  · intro w hw hav
    unfold findFallbackWorker
    rw [hfb]
    exact firstAvailable_head workers _ _ w hw hav
  · intro hcons w hres
    rcases hmem w hres with ⟨hor, _⟩
    rcases hor with hw | hw
    · have hb := hcons BackendClaudeOpus w hw
      rw [hb]
      exact ⟨Or.inl rfl, by decide⟩
    · have hb := hcons BackendClaudeSonnet w hw
      rw [hb]
      exact ⟨Or.inr rfl, by decide⟩

/-- Witness for C6: in a registry holding only an available Sonnet worker,
critical-tier fallback resolution returns that worker, which is indeed the
registered sonnet handle. -/
theorem c6_fallback_complex_critical_witness :
    (sonnetOnly BackendClaudeOpus = some wSonnet ∨
     sonnetOnly BackendClaudeSonnet = some wSonnet) ∧ wSonnet.available = true :=
  (c6_fallback_complex_critical sonnetOnly Tier.critical (Or.inr rfl)).2.2.1 wSonnet rfl

/-! ## Claim C3 -/

theorem findFallback_empty (t : Tier) : findFallbackWorker emptyWorkers t = none := by
  cases t <;> rfl

/-- Claim C3: with no worker registered, `Run` returns status failed with a
non-empty error, writes no execution row, and the only ledger change is the
created task row, which keeps its pending status — no status update is
persisted on this path. -/
theorem c3_run_empty_registry (order : List Tier) (taskId execId : String)
    (now : Nat) (elapsedMs : Int) (title descr : String) (st : LedgerState) :
    (conductorRun emptyWorkers order taskId execId now elapsedMs title descr st).1.status
        = "failed" ∧
    (conductorRun emptyWorkers order taskId execId now elapsedMs title descr st).1.error ≠ "" ∧
    (conductorRun emptyWorkers order taskId execId now elapsedMs title descr st).2.execs
        = st.execs ∧
    (conductorRun emptyWorkers order taskId execId now elapsedMs title descr st).2.tasks
        = st.tasks ++
          [⟨taskId, none, title, descr, (Classify order title descr).tier.toNat, "pending",
            (Classify order title descr).recommendedBackend, "", now, now⟩] := by
  unfold conductorRun
  simp only [emptyWorkers, findFallback_empty]
  refine ⟨?_, ?_, ?_, ?_⟩ <;> trivial

/-! ## Claim C4 -/

/-- Claim C4, amended.  The claim says `DryRun` performs steps 1–2 of the
pipeline, including creating and persisting the Task record in pending
status.  The code persists nothing at all: `DryRun` only classifies and
previews worker availability and fallback — the ledger state is returned
untouched, no execution is recorded, and no task id is even generated
(`c4_counterexample` shows no task row appears). -/
theorem c4_dryrun_no_persistence (workers : Workers) (order : List Tier)
    (title descr : String) (st : LedgerState) :
    (conductorDryRun workers order title descr st).2 = st ∧
    (conductorDryRun workers order title descr st).1.execution = none ∧
    (conductorDryRun workers order title descr st).1.taskId = "" ∧
    (conductorDryRun workers order title descr st).1.dryRun = true :=
  ⟨rfl, rfl, rfl, rfl⟩

/-- Counterexample to claim C4 as stated: after a dry run on an empty
ledger the tasks table is still empty — no Task record was created or
persisted, while the claim requires a pending Task row. -/
theorem c4_counterexample :
    (conductorDryRun emptyWorkers allTiers "do" "the thing" emptyLedger).2.tasks.length = 0 :=
  rfl

/-! ## Claim C7 -/

theorem foldl_createTask (ts : List LTask) :
    ∀ s : LedgerState, ts.foldl createTask s = ⟨s.tasks ++ ts, s.execs⟩ := by
  induction ts with
  | nil => intro s; cases s; simp
  | cons t rest ih =>
    intro s
    rw [List.foldl_cons, ih]
    simp [createTask]

theorem foldl_createExecution (es : List LExec) :
    ∀ s : LedgerState, es.foldl createExecution s = ⟨s.tasks, s.execs ++ es⟩ := by
  induction es with
  | nil => intro s; cases s; simp
  | cons e rest ih =>
    intro s
    rw [List.foldl_cons, ih]
    simp [createExecution]

/-- Claim C7: after creating the tasks `ts` and the executions `es`,
`GetStats` reports exactly the total task count, the done-task count, the
total execution count, and per-backend-class (claude/gemini/ollama)
execution counts and summed costs equal to the sums over the inserted
records. -/
theorem c7_stats_roundtrip (ts : List LTask) (es : List LExec) :
    (getStats (es.foldl createExecution (ts.foldl createTask emptyLedger))).totalTasks
        = ts.length ∧
    (getStats (es.foldl createExecution (ts.foldl createTask emptyLedger))).completedTasks
        = (ts.filter (fun t => t.status == "done")).length ∧
    (getStats (es.foldl createExecution (ts.foldl createTask emptyLedger))).totalExecutions
        = es.length ∧
    (getStats (es.foldl createExecution (ts.foldl createTask emptyLedger))).claudeTasks
        = (es.filter (fun e => backendLike "claude:" e.backend)).length ∧
    (getStats (es.foldl createExecution (ts.foldl createTask emptyLedger))).claudeCost
        = ((es.filter (fun e => backendLike "claude:" e.backend)).map (fun e => e.costUsd)).sum ∧
    (getStats (es.foldl createExecution (ts.foldl createTask emptyLedger))).geminiTasks
        = (es.filter (fun e => backendLike "gemini:" e.backend)).length ∧
    (getStats (es.foldl createExecution (ts.foldl createTask emptyLedger))).geminiCost
        = ((es.filter (fun e => backendLike "gemini:" e.backend)).map (fun e => e.costUsd)).sum ∧
    (getStats (es.foldl createExecution (ts.foldl createTask emptyLedger))).ollamaTasks
        = (es.filter (fun e => backendLike "ollama:" e.backend)).length ∧
    (getStats (es.foldl createExecution (ts.foldl createTask emptyLedger))).ollamaCost
        = ((es.filter (fun e => backendLike "ollama:" e.backend)).map (fun e => e.costUsd)).sum := by
  have hst : es.foldl createExecution (ts.foldl createTask emptyLedger)
      = ⟨ts, es⟩ := by
    rw [foldl_createTask, foldl_createExecution]
    simp [emptyLedger]
  rw [hst]
  exact ⟨rfl, rfl, rfl, rfl, rfl, rfl, rfl, rfl, rfl⟩

/-! ## Claim C8 -/

theorem updateTaskStatus_execs (s : LedgerState) (i stat : String) (n : Nat) :
    (updateTaskStatus s i stat n).execs = s.execs := rfl

theorem createTask_execs (s : LedgerState) (t : LTask) :
    (createTask s t).execs = s.execs := rfl

theorem createExecution_execs (s : LedgerState) (e : LExec) :
    (createExecution s e).execs = s.execs ++ [e] := rfl

/-- Claim C8: every execution row `Run` persists has status "completed" and
an empty error message — on a transport error or a reported business
failure `Run` returns before `CreateExecution`, so a failed execution never
reaches the executions table.  Stated as: any row of the final executions
table either was already there or is completed with no error. -/
theorem c8_execution_rows_completed (workers : Workers) (order : List Tier)
    (taskId execId : String) (now : Nat) (elapsedMs : Int) (title descr : String)
    (st : LedgerState) (e : LExec)
    (he : e ∈ (conductorRun workers order taskId execId now elapsedMs title descr st).2.execs) :
    e ∈ st.execs ∨ (e.status = "completed" ∧ e.errorMsg = "") := by
  rcases hrun : conductorRun workers order taskId execId now elapsedMs title descr st
    with ⟨res, st'⟩
  rw [hrun] at he
  simp only [conductorRun] at hrun
  split at hrun
  · injection hrun with h1 h2
    subst h2
    exact Or.inl (by simpa [createTask_execs] using he)
  · split at hrun
    · injection hrun with h1 h2
      subst h2
      exact Or.inl (by simpa [updateTaskStatus_execs, createTask_execs] using he)
    · rename_i er
      split at hrun
      · rename_i hsucc
        split at hrun
        · injection hrun with h1 h2
          subst h2
          simp only [updateTaskStatus_execs, createExecution_execs, updateTaskStatus_execs,
            createTask_execs, hsucc, Bool.not_true, Bool.false_eq_true, if_false,
            List.mem_append, List.mem_singleton] at he
          rcases he with he | he
          · exact Or.inl he
          · subst he
            exact Or.inr ⟨rfl, rfl⟩
        · injection hrun with h1 h2
          subst h2
          simp only [updateTaskStatus_execs, createExecution_execs,
            createTask_execs, hsucc, Bool.not_true, Bool.false_eq_true, if_false,
            List.mem_append, List.mem_singleton] at he
          rcases he with he | he
          · exact Or.inl he
          · subst he
            exact Or.inr ⟨rfl, rfl⟩
      · injection hrun with h1 h2
        subst h2
        exact Or.inl (by simpa [updateTaskStatus_execs, createTask_execs] using he)

/-- Witness for C8: a successful run of "do the thing" on the Sonnet-only
registry persists exactly one execution row, and that row is completed
with an empty error message. -/
theorem c8_execution_rows_completed_witness :
    ((⟨"e1", "t1", "", "claude:sonnet", "", "out", 3, 0, 4, "completed", "", 100⟩ : LExec)
        ∈ emptyLedger.execs) ∨
    ((⟨"e1", "t1", "", "claude:sonnet", "", "out", 3, 0, 4, "completed", "", 100⟩ : LExec).status
        = "completed" ∧
     (⟨"e1", "t1", "", "claude:sonnet", "", "out", 3, 0, 4, "completed", "", 100⟩ : LExec).errorMsg
        = "") :=
  c8_execution_rows_completed sonnetOnly allTiers "t1" "e1" 100 4 "do" "the thing"
    emptyLedger _ (by decide)

/-! ## Claim C9 -/

theorem createExecution_tasks (s : LedgerState) (e : LExec) :
    (createExecution s e).tasks = s.tasks := rfl

theorem createTask_tasks (s : LedgerState) (t : LTask) :
    (createTask s t).tasks = s.tasks ++ [t] := rfl

theorem updateTaskStatus_frame (s : LedgerState) (i stat : String) (n : Nat) :
    (updateTaskStatus s i stat n).tasks.map
        (fun t => (t.id, t.parentId, t.title, t.description, t.tier,
                   t.workerBackend, t.contextPath, t.createdAt)) =
      s.tasks.map
        (fun t => (t.id, t.parentId, t.title, t.description, t.tier,
                   t.workerBackend, t.contextPath, t.createdAt)) := by
  unfold updateTaskStatus
  rw [List.map_map]
  apply List.map_congr_left
  intro t _
  by_cases h : t.id = i <;> simp [h]

theorem mem_updateTaskStatus (s : LedgerState) (i stat : String) (n : Nat) (t' : LTask)
    (h : t' ∈ (updateTaskStatus s i stat n).tasks) :
    ∃ t0 ∈ s.tasks, t'.id = t0.id ∧ t'.workerBackend = t0.workerBackend := by
  unfold updateTaskStatus at h
  rcases List.mem_map.mp h with ⟨t0, ht0, heq⟩
  refine ⟨t0, ht0, ?_, ?_⟩ <;> rw [← heq] <;> by_cases h0 : t0.id = i <;> simp [h0]

theorem mem_createTask_fresh (st : LedgerState) (task : LTask) (t0 : LTask)
    (hfresh : ∀ t ∈ st.tasks, t.id ≠ task.id)
    (h : t0 ∈ (createTask st task).tasks) (hid : t0.id = task.id) : t0 = task := by
  rw [createTask_tasks] at h
  rcases List.mem_append.mp h with h | h
  · exact absurd hid (hfresh t0 h)
  · exact List.mem_singleton.mp h

/-- Claim C9: `UpdateTaskStatus` changes only the status and updated-at
columns of a task row (first conjunct); consequently, after a `Run` with a
fresh task id the created task row still carries the classifier's
recommended backend as its `worker_backend`, whatever worker actually
executed (second conjunct); the backend actually used is recorded in the
new execution row, which carries exactly `RunResult.ActualBackend`
(third conjunct). -/
theorem c9_worker_backend_immutable (workers : Workers) (order : List Tier)
    (taskId execId : String) (now : Nat) (elapsedMs : Int) (title descr : String)
    (st : LedgerState) (hfresh : ∀ t ∈ st.tasks, t.id ≠ taskId) :
    (∀ (s : LedgerState) (i stat : String) (n : Nat),
      (updateTaskStatus s i stat n).tasks.map
          (fun t => (t.id, t.parentId, t.title, t.description, t.tier,
                     t.workerBackend, t.contextPath, t.createdAt)) =
        s.tasks.map
          (fun t => (t.id, t.parentId, t.title, t.description, t.tier,
                     t.workerBackend, t.contextPath, t.createdAt))) ∧
    (∀ t' ∈ (conductorRun workers order taskId execId now elapsedMs title descr st).2.tasks,
      t'.id = taskId →
        t'.workerBackend = (Classify order title descr).recommendedBackend) ∧
    (∀ e ∈ (conductorRun workers order taskId execId now elapsedMs title descr st).2.execs,
      e ∉ st.execs →
        e.backend =
          (conductorRun workers order taskId execId now elapsedMs title descr st).1.actualBackend) := by
  rcases hrun : conductorRun workers order taskId execId now elapsedMs title descr st
    with ⟨res, st'⟩
  have htask : ∀ t' ∈ st'.tasks, t'.id = taskId →
      t'.workerBackend = (Classify order title descr).recommendedBackend := by
    have key : ∀ t' ∈ st'.tasks, ∃ t0,
        t0 ∈ (createTask st
          ⟨taskId, none, title, descr, (Classify order title descr).tier.toNat, "pending",
           (Classify order title descr).recommendedBackend, "", now, now⟩).tasks ∧
        t'.id = t0.id ∧ t'.workerBackend = t0.workerBackend := by
      simp only [conductorRun] at hrun
      split at hrun
      · injection hrun with h1 h2
        subst h2
        intro t' ht'
        exact ⟨t', ht', rfl, rfl⟩
      · split at hrun
        · injection hrun with h1 h2
          subst h2
          intro t' ht'
          rcases mem_updateTaskStatus _ _ _ _ t' ht' with ⟨t1, ht1, e1, e2⟩
          rcases mem_updateTaskStatus _ _ _ _ t1 ht1 with ⟨t0, ht0, e3, e4⟩
          exact ⟨t0, ht0, e1.trans e3, e2.trans e4⟩
        · split at hrun
          · split at hrun
            · injection hrun with h1 h2
              subst h2
              intro t' ht'
              rcases mem_updateTaskStatus _ _ _ _ t' ht' with ⟨t1, ht1, e1, e2⟩
              rw [createExecution_tasks] at ht1
              rcases mem_updateTaskStatus _ _ _ _ t1 ht1 with ⟨t0, ht0, e3, e4⟩
              exact ⟨t0, ht0, e1.trans e3, e2.trans e4⟩
            · injection hrun with h1 h2
              subst h2
              intro t' ht'
              rcases mem_updateTaskStatus _ _ _ _ t' ht' with ⟨t1, ht1, e1, e2⟩
              rw [createExecution_tasks] at ht1
              rcases mem_updateTaskStatus _ _ _ _ t1 ht1 with ⟨t0, ht0, e3, e4⟩
              exact ⟨t0, ht0, e1.trans e3, e2.trans e4⟩
          · injection hrun with h1 h2
            subst h2
            intro t' ht'
            rcases mem_updateTaskStatus _ _ _ _ t' ht' with ⟨t1, ht1, e1, e2⟩
            rcases mem_updateTaskStatus _ _ _ _ t1 ht1 with ⟨t0, ht0, e3, e4⟩
            exact ⟨t0, ht0, e1.trans e3, e2.trans e4⟩
    intro t' ht' hid
    rcases key t' ht' with ⟨t0, ht0, e1, e2⟩
    have ht0id : t0.id = taskId := by rw [← e1, hid]
    have := mem_createTask_fresh st _ t0 (by simpa using hfresh) ht0 (by simpa using ht0id)
    rw [e2, this]
  refine ⟨fun s i stat n => updateTaskStatus_frame s i stat n, htask, ?_⟩
  intro e he hnot
  simp only [conductorRun] at hrun
  split at hrun
  · injection hrun with h1 h2
    subst h1 h2
    rw [createTask_execs] at he
    exact absurd he hnot
  · split at hrun
    · injection hrun with h1 h2
      subst h1 h2
      rw [updateTaskStatus_execs, updateTaskStatus_execs, createTask_execs] at he
      exact absurd he hnot
    · rename_i er
      split at hrun
      · rename_i hsucc
        split at hrun
        · injection hrun with h1 h2
          subst h1 h2
          simp only [updateTaskStatus_execs, createExecution_execs, updateTaskStatus_execs,
            createTask_execs, hsucc, Bool.not_true, Bool.false_eq_true, if_false,
            List.mem_append, List.mem_singleton] at he
          rcases he with he | he
          · exact absurd he hnot
          · subst he
            rfl
        · injection hrun with h1 h2
          subst h1 h2
          simp only [updateTaskStatus_execs, createExecution_execs, updateTaskStatus_execs,
            createTask_execs, hsucc, Bool.not_true, Bool.false_eq_true, if_false,
            List.mem_append, List.mem_singleton] at he
          rcases he with he | he
          · exact absurd he hnot
          · subst he
            rfl
      · injection hrun with h1 h2
        subst h1 h2
        rw [updateTaskStatus_execs, updateTaskStatus_execs, createTask_execs] at he
        exact absurd he hnot

/-- Witness for C9: after a successful run of "do the thing" (classified
standard and executed by the Sonnet worker) the persisted task row — by
then in validating status — still carries the classifier's recommended
backend. -/
theorem c9_worker_backend_immutable_witness :
    (⟨"t1", none, "do", "the thing", 2, "validating", "claude:sonnet", "", 100, 100⟩
        : LTask).workerBackend = (Classify allTiers "do" "the thing").recommendedBackend :=
  (c9_worker_backend_immutable sonnetOnly allTiers "t1" "e1" 100 4 "do" "the thing"
    emptyLedger (fun t ht => absurd ht (List.not_mem_nil t))).2.1 _ (by decide) (by decide)
